import Mathlib

/-!
Verification development for the starship prompt template/segment rendering
engine and the aws / pony / perl modules that consume it.

The module sources (`src/modules/aws.rs`, `src/modules/pony.rs`,
`src/modules/perl.rs`, `src/configs/pony.rs`) are embedded directly.  The
formatter engine itself (`StringFormatter`: parser and evaluator) is not part
of the source excerpt, so it is modelled from the specification, sections 3,
4.1, 4.2, 4.4, 6 and 7; each such definition carries a doc comment starting
with "Modelled from the spec:".
-/

namespace Starship

/-- Modelled from the spec: §4.1 / §7.  Parse errors of the template
mini-language.  `StringFormatter`'s error type is not in the source excerpt.
Each carries the offending offset (in Unicode scalar values; §3 describes a
format string as a sequence of Unicode scalar values). -/
inductive ParseError where
  | unterminated (offset : Nat)
  | missingStyle (offset : Nat)
  | invalidEscape (offset : Nat)
deriving DecidableEq, Repr

/-- Modelled from the spec: §3 StyleToken — either a literal style keyword or
a `$name` reference into the style resolver. -/
inductive StyleTok where
  | lit (word : String)
  | svar (name : String)
deriving DecidableEq, Repr

/-- Modelled from the spec: §3 Node — the parsed tree of the template
mini-language: literal text, `$name` variables, and `[display](style)`
groups. -/
inductive Node where
  | lit (s : String)
  | var (name : String)
  | group (display : List Node) (style : List StyleTok)

/-- Identifier characters of a `$identifier` variable reference
(spec §4.1: alphanumeric/underscore token). -/
def identChar (c : Char) : Bool :=
  c.isAlphanum || c = '_'

/-- Characters that may follow a backslash as an escape
(spec §6: escapes render the literal character). -/
def escapable (c : Char) : Bool :=
  c = '$' || c = '[' || c = ']' || c = '(' || c = ')'

/-- Split a style span into its whitespace-separated words. -/
def splitWords : List Char → List Char → List (List Char)
  | [], acc => if acc.isEmpty then [] else [acc.reverse]
  | c :: cs, acc =>
      if c = ' ' then
        if acc.isEmpty then splitWords cs [] else acc.reverse :: splitWords cs []
      else splitWords cs (c :: acc)

/-- A style word is a `$name` reference or a literal keyword. -/
def mkTok : List Char → StyleTok
  | '$' :: rest => .svar (String.mk rest)
  | w => .lit (String.mk w)

/-- Modelled from the spec: §6 style span grammar — whitespace-separated
tokens, each a literal keyword or a `$name` variable reference. -/
def mkStyle (s : String) : List StyleTok :=
  (splitWords s.data []).map mkTok

/-- Internal mode of the template scanner: plain text, accumulating a
`$identifier`, just closed a display span (a style span must follow), or
accumulating a style span. -/
inductive PMode where
  | text
  | varAcc (acc : List Char)
  | expectStyle (display : List Node)
  | styleAcc (display : List Node) (acc : List Char)

/-- Rank used for termination: flushing an accumulated variable re-processes
the boundary character, which keeps the input but lowers the rank. -/
def PMode.rank : PMode → Nat
  | .varAcc _ => 1
  | _ => 0

/-- Modelled from the spec: §4.1 parser of the template mini-language, as a
single-pass machine.  `stack` holds the sibling lists of the enclosing open
display spans, `cur` the (reversed) siblings of the current level.  Fails
closed: stray `]`, `(`, `)` and unknown escapes are parse errors. -/
def run : List Char → Nat → PMode → List (List Node) → List Node →
    Except ParseError (List Node)
  | [], p, .text, stack, cur =>
      if stack.isEmpty then .ok cur.reverse else .error (.unterminated p)
  | [], p, .varAcc acc, stack, cur =>
      run [] p .text stack (.var (String.mk acc.reverse) :: cur)
  | [], p, .expectStyle _, _, _ => .error (.missingStyle p)
  | [], p, .styleAcc _ _, _, _ => .error (.unterminated p)
  | c :: cs, p, .text, stack, cur =>
      if c = '\\' then
        match cs with
        | c2 :: cs' =>
            if escapable c2 then run cs' (p + 2) .text stack (.lit (String.mk [c2]) :: cur)
            else .error (.invalidEscape p)
        | [] => .error (.invalidEscape p)
      else if c = '$' then
        match cs with
        | c2 :: cs' =>
            if c2 = '$' then run cs' (p + 2) .text stack (.lit "$" :: cur)
            else if identChar c2 then run cs' (p + 2) (.varAcc [c2]) stack cur
            else run (c2 :: cs') (p + 1) .text stack (.lit "$" :: cur)
        | [] => run [] (p + 1) .text stack (.lit "$" :: cur)
      else if c = '[' then run cs (p + 1) .text (cur :: stack) []
      else if c = ']' then
        match stack with
        | [] => .error (.unterminated p)
        | parent :: stk => run cs (p + 1) (.expectStyle cur.reverse) stk parent
      else if c = '(' then .error (.unterminated p)
      else if c = ')' then .error (.unterminated p)
      else run cs (p + 1) .text stack (.lit (String.mk [c]) :: cur)
  | c :: cs, p, .varAcc acc, stack, cur =>
      if identChar c then run cs (p + 1) (.varAcc (c :: acc)) stack cur
      else run (c :: cs) p .text stack (.var (String.mk acc.reverse) :: cur)
  | c :: cs, p, .expectStyle d, stack, cur =>
      if c = '(' then run cs (p + 1) (.styleAcc d []) stack cur
      else .error (.missingStyle p)
  | c :: cs, p, .styleAcc d acc, stack, cur =>
      if c = ')' then
        run cs (p + 1) .text stack (.group d (mkStyle (String.mk acc.reverse)) :: cur)
      else if c = '(' || c = '[' || c = ']' || c = '\\' then .error (.unterminated p)
      else run cs (p + 1) (.styleAcc d (c :: acc)) stack cur
termination_by cs _ mode _ _ => (cs.length, mode.rank)
decreasing_by all_goals first
  | decreasing_tactic
  | (apply Prod.Lex.right; simp [PMode.rank])

/-- Modelled from the spec: §4.1 `parse(format) -> Result<NodeTree, ParseError>`. -/
def parse (s : String) : Except ParseError (List Node) :=
  run s.data 0 .text [] []

/-- Delimiter-matching scanner, independent of the parser: tracks the nesting
depth of display brackets and whether the scan is inside a parenthesised
span.  Escape pairs are skipped, a closing delimiter without a matching
opener fails, and so does an unclosed opener at end of input. -/
def sdRun : List Char → Nat → Bool → Bool
  | [], d, inStyle => !inStyle && d == 0
  | c :: cs, d, false =>
      if c = '\\' then
        match cs with
        | _ :: cs' => sdRun cs' d false
        | [] => d == 0
      else if c = '[' then sdRun cs (d + 1) false
      else if c = ']' then (if d == 0 then false else sdRun cs (d - 1) false)
      else if c = '(' then sdRun cs d true
      else if c = ')' then false
      else sdRun cs d false
  | c :: cs, d, true =>
      if c = ')' then sdRun cs d false
      else if c = '(' || c = '[' || c = ']' || c = '\\' then false
      else sdRun cs d true

/-- A format string has matched brackets and parentheses. -/
def chkDelims (s : String) : Bool := sdRun s.data 0 false

/-- Escape-validity scanner, independent of the parser: every backslash must
be followed by one of the escapable characters. -/
def ceRun : List Char → Bool
  | [] => true
  | c :: cs =>
      if c = '\\' then
        match cs with
        | c2 :: cs' => escapable c2 && ceRun cs'
        | [] => false
      else ceRun cs

/-- A format string contains no unknown escape. -/
def chkEscapes (s : String) : Bool := ceRun s.data

/-- Style-pairing scanner, independent of the parser: every display-closing
`]` must be immediately followed by a `(` opening a style span (escape pairs
skipped, parenthesised spans skipped). -/
def spRun : List Char → Bool → Bool
  | [], inStyle => !inStyle
  | c :: cs, false =>
      if c = '\\' then
        match cs with
        | _ :: cs' => spRun cs' false
        | [] => true
      else if c = ']' then
        match cs with
        | c2 :: cs' => if c2 = '(' then spRun cs' true else false
        | [] => false
      else if c = '(' then spRun cs true
      else spRun cs false
  | c :: cs, true => if c = ')' then spRun cs false else spRun cs true

/-- Every `[...]` display span of the format string is immediately followed
by a `(...)` style span. -/
def chkStylePaired (s : String) : Bool := spRun s.data false

/-- Modes of the literal-text extractor: plain text, skipping a variable
identifier, skipping a style span. -/
inductive TMode where
  | t
  | sv
  | ss

/-- Termination rank of the text extractor (leaving an identifier
re-processes the boundary character). -/
def TMode.rank : TMode → Nat
  | .sv => 1
  | _ => 0

/-- Literal-text extractor, independent of the parser: resolves escapes and
`$$` to their literal characters, drops `$identifier` references, group
brackets and style spans, and keeps everything else. -/
def txRun : List Char → TMode → String
  | [], _ => ""
  | c :: cs, .t =>
      if c = '\\' then
        match cs with
        | c2 :: cs' => String.mk [c2] ++ txRun cs' .t
        | [] => ""
      else if c = '$' then
        match cs with
        | c2 :: cs' =>
            if c2 = '$' then "$" ++ txRun cs' .t
            else if identChar c2 then txRun cs' .sv
            else "$" ++ txRun (c2 :: cs') .t
        | [] => "$"
      else if c = '[' then txRun cs .t
      else if c = ']' then txRun cs .t
      else if c = '(' then txRun cs .ss
      else if c = ')' then txRun cs .t
      else String.mk [c] ++ txRun cs .t
  | c :: cs, .sv => if identChar c then txRun cs .sv else txRun (c :: cs) .t
  | c :: cs, .ss => if c = ')' then txRun cs .t else txRun cs .ss
termination_by cs mode => (cs.length, mode.rank)
decreasing_by all_goals first
  | decreasing_tactic
  | (apply Prod.Lex.right; simp [TMode.rank])

/-- The literal text of a template string, with escape sequences replaced by
their literal characters and all markup (variables, brackets, style spans)
removed. -/
def textOf (s : String) : String := txRun s.data .t

mutual

/-- The literal text carried by a node: literals verbatim, variables nothing,
groups the text of their display span (style spans carry no text). -/
def nodeText : Node → String
  | .lit s => s
  | .var _ => ""
  | .group d _ => nodesText d

/-- The literal text carried by a list of nodes, in order. -/
def nodesText : List Node → String
  | [] => ""
  | n :: l => nodeText n ++ nodesText l

end

/-- Modelled from the spec: §3 Segment — `(text, optional style)`. -/
abbrev Segment := String × Option String

/-- Modelled from the spec: §4.3 — the meta resolver, a simple string
substitution keyed by variable name. -/
abbrev MetaF := String → Option String

/-- Modelled from the spec: §4.3 — the style resolver: maps a style-variable
name to a style specification or an error; absent names are skipped. -/
abbrev StyleF := String → Option (Except String String)

/-- Modelled from the spec: §3 ResolvedValue — `Some(text)` / `None` /
`Err(error)` for a content variable, as the value resolver returns it. -/
abbrev ValueF := String → Option (Except String String)

/-- Result of evaluating a span of nodes: the buffered segments, whether the
span contains a direct Variable reference, and whether any tracked reference
resolved (a direct variable via meta or value, or a nested group that
rendered non-empty). -/
structure EvalRes where
  segs : List Segment
  hasRef : Bool
  anyRes : Bool
deriving DecidableEq, Repr

/-- Modelled from the spec: §4.2 step 4 — resolve a style span: literal
keywords pass through, `$name` tokens are dispatched to the style resolver;
an `Err` from the resolver aborts evaluation, an absent name is skipped. -/
def resolveStyleWords (sf : StyleF) : List StyleTok → Except String (List String)
  | [] => .ok []
  | .lit w :: r => (resolveStyleWords sf r).map (fun ws => w :: ws)
  | .svar n :: r =>
      match sf n with
      | some (.error e) => .error e
      | some (.ok sp) => (resolveStyleWords sf r).map (fun ws => sp :: ws)
      | none => resolveStyleWords sf r

/-- Modelled from the spec: §4.2 steps 3 and 5 — a kept group's style is
applied to every buffered segment that does not already carry a more
specific nested style. -/
def applyStyle (sp : String) (segs : List Segment) : List Segment :=
  segs.map (fun s => (s.1, some (s.2.getD sp)))

mutual

/-- Modelled from the spec: §4.2 — evaluate one node.  A `Variable` consults
the meta resolver first, then the value resolver; `Err` aborts.  A `Group`
buffers its display span, elides itself when it has a direct Variable
reference and no tracked reference resolved, and otherwise resolves and
applies its style span. -/
def evalNode (m : MetaF) (sf : StyleF) (v : ValueF) : Node → Except String EvalRes
  | .lit s => .ok ⟨[(s, none)], false, false⟩
  | .var n =>
      match m n with
      | some t => .ok ⟨[(t, none)], true, true⟩
      | none =>
          match v n with
          | some (.ok t) => .ok ⟨[(t, none)], true, true⟩
          | some (.error e) => .error e
          | none => .ok ⟨[], true, false⟩
  | .group d st => do
      let r ← evalNodes m sf v d
      if r.hasRef && !r.anyRes then pure ⟨[], false, false⟩
      else do
        let ws ← resolveStyleWords sf st
        let out := applyStyle (String.intercalate " " ws) r.segs
        pure ⟨out, false, !out.isEmpty⟩

/-- Modelled from the spec: §4.2 step 1 — depth-first, left-to-right walk;
segment order mirrors source order, reference tracking is accumulated. -/
def evalNodes (m : MetaF) (sf : StyleF) (v : ValueF) : List Node → Except String EvalRes
  | [] => .ok ⟨[], false, false⟩
  | n :: l => do
      let r ← evalNode m sf v n
      let rs ← evalNodes m sf v l
      pure ⟨r.segs ++ rs.segs, r.hasRef || rs.hasRef, r.anyRes || rs.anyRes⟩

end

/-- Modelled from the spec: §4.2 `evaluate(tree, meta_fn, style_fn, value_fn)
-> Result<Vec<Segment>, EvalError>`. -/
def evaluate (m : MetaF) (sf : StyleF) (v : ValueF) (l : List Node) :
    Except String (List Segment) :=
  (evalNodes m sf v l).map EvalRes.segs

/-- From the source (aws.rs lines 99-105, pony.rs 49-55, perl.rs 48-54):
`module.set_segments` is fed only an `Ok` result; on `Err` a warning is
logged and the module function returns `None`, contributing nothing. -/
def setSegmentsResult : Except String (List Segment) → Option (List Segment)
  | .ok s => some s
  | .error _ => none

/-- Modelled from the spec: §4.4 / §7 — the call-site fallback contract:
a `ParseError` on the primary format triggers exactly one retry against the
caller-supplied default format; if that also fails to parse, the module is
omitted.  Evaluation errors never trigger the retry. -/
def renderWithDefault (primary dflt : String) (m : MetaF) (sf : StyleF)
    (v : ValueF) : Option (List Segment) :=
  match parse primary with
  | .ok t => setSegmentsResult (evaluate m sf v t)
  | .error _ =>
      match parse dflt with
      | .ok t => setSegmentsResult (evaluate m sf v t)
      | .error _ => none

/-- From the source (aws.rs lines 81-105, pony.rs 23-55): the module call
pattern `StringFormatter::new(format).and_then(|f| f. ... .parse(None))`
followed by the `set_segments` match — a failure of either parsing or
evaluation makes the module produce no segments. -/
def moduleParsed (fmtStr : String) (m : MetaF) (sf : StyleF) (v : ValueF) :
    Option (List Segment) :=
  match parse fmtStr with
  | .ok t => setSegmentsResult (evaluate m sf v t)
  | .error _ => none

/-- Environment and filesystem context as the aws module consumes it:
`context.get_env`, `context.get_home`, and the parsed contents of ini files
on disk (`Ini::load_from_file`, abstracted to a lookup from a path to parsed
sections, since file I/O is outside the embedding). -/
structure AwsContext where
  env : String → Option String
  home : Option String
  loadIni : String → Option (List (String × List (String × String)))

/-- From the source (aws.rs lines 14-38): `get_aws_region_from_config` —
locate the config file via `AWS_CONFIG_FILE` or `~/.aws/config`, load it,
and read key `region` from section `profile <name>` when a profile is
known, section `default` otherwise. -/
def getAwsRegionFromConfig (ctx : AwsContext) (awsProfile : Option String) :
    Option String := do
  let loc ← (ctx.env "AWS_CONFIG_FILE").orElse
    (fun _ => ctx.home.map (fun h => h ++ "/.aws/config"))
  let ini ← ctx.loadIni loc
  let sect ←
    match awsProfile with
    | some p => List.lookup ("profile " ++ p) ini
    | none => List.lookup "default" ini
  List.lookup "region" sect

/-- From the source (aws.rs lines 40-57): `get_aws_profile_and_region` —
profile from the first set variable among AWSU_PROFILE, AWS_VAULT,
AWS_PROFILE; region from AWS_DEFAULT_REGION or AWS_REGION, falling back to
the config file parameterised by the profile just found. -/
def getAwsProfileAndRegion (ctx : AwsContext) : Option String × Option String :=
  let profile := ["AWSU_PROFILE", "AWS_VAULT", "AWS_PROFILE"].findSome? ctx.env
  let region := (ctx.env "AWS_DEFAULT_REGION").orElse (fun _ => ctx.env "AWS_REGION")
  match profile, region with
  | some p, some r => (some p, some r)
  | none, some r => (none, some r)
  | some p, none => (some p, getAwsRegionFromConfig ctx (some p))
  | none, none => (none, getAwsRegionFromConfig ctx none)

/-- The aws module configuration as aws.rs consumes it (configs/aws.rs is
not part of the excerpt, so the fields stay parametric; region_aliases is an
association list standing for the HashMap). -/
structure AwsConfig where
  format : String
  symbol : String
  style : String
  regionAliases : List (String × String)

/-- From the source (aws.rs lines 59-64): `alias_region`. -/
def aliasRegion (region : String) (aliases : List (String × String)) : String :=
  match List.lookup region aliases with
  | none => region
  | some a => a

/-- From the source (aws.rs lines 66-108): the aws module.  Returns `None`
when neither a profile nor a region is available; otherwise renders the
configured format with the module's meta/style/value resolvers. -/
def awsModule (ctx : AwsContext) (cfg : AwsConfig) : Option (List Segment) :=
  let pr := getAwsProfileAndRegion ctx
  if pr.1 = none ∧ pr.2 = none then none
  else
    let mappedRegion := pr.2.map (fun r => aliasRegion r cfg.regionAliases)
    moduleParsed cfg.format
      (fun vn => if vn = "symbol" then some cfg.symbol else none)
      (fun vn => if vn = "style" then some (.ok cfg.style) else none)
      (fun vn =>
        if vn = "profile" then pr.1.map Except.ok
        else if vn = "region" then mappedRegion.map Except.ok
        else none)

/-! ### Parser soundness with respect to the independent scanners -/

theorem identChar_ne {c : Char} (h : identChar c = true) :
    c ≠ '\\' ∧ c ≠ '[' ∧ c ≠ ']' ∧ c ≠ '(' ∧ c ≠ ')' ∧ c ≠ '$' := by
  refine ⟨?_, ?_, ?_, ?_, ?_, ?_⟩ <;> rintro rfl <;> revert h <;> decide

theorem ceRun_cons {c : Char} (cs : List Char) (h : c ≠ '\\') :
    ceRun (c :: cs) = ceRun cs := by
  rw [ceRun.eq_def]; simp [h]

theorem ceRun_esc {c2 : Char} (cs : List Char) (h : escapable c2 = true) :
    ceRun ('\\' :: c2 :: cs) = ceRun cs := by
  rw [ceRun.eq_def]; simp [h]

theorem ceRun_cons_ident {c : Char} (cs : List Char) (h : identChar c = true) :
    ceRun (c :: cs) = ceRun cs :=
  ceRun_cons cs (identChar_ne h).1

theorem run_ok_ce (cs : List Char) (p : Nat) (mode : PMode)
    (stack : List (List Node)) (cur : List Node) :
    ∀ t, run cs p mode stack cur = Except.ok t → ceRun cs = true := by
  induction cs, p, mode, stack, cur using run.induct <;> intro t h <;>
    rw [run.eq_def] at h <;>
    simp_all [ceRun, ceRun_esc, ceRun_cons, ceRun_cons_ident]

/-- The delimiter scanner is inside a parenthesised span exactly in style
accumulation. -/
def sdSt : PMode → Bool
  | .styleAcc _ _ => true
  | _ => false

theorem sdRun_nil (d : Nat) (b : Bool) : sdRun [] d b = (!b && d == 0) := by
  rw [sdRun.eq_def]

theorem sdRun_esc (c2 : Char) (cs : List Char) (d : Nat) :
    sdRun ('\\' :: c2 :: cs) d false = sdRun cs d false := by
  rw [sdRun.eq_def]; simp

theorem sdRun_lb (cs : List Char) (d : Nat) :
    sdRun ('[' :: cs) d false = sdRun cs (d + 1) false := by
  rw [sdRun.eq_def]; simp

theorem sdRun_rb_succ (cs : List Char) (d : Nat) :
    sdRun (']' :: cs) (d + 1) false = sdRun cs d false := by
  rw [sdRun.eq_def]; simp

theorem sdRun_lp (cs : List Char) (d : Nat) :
    sdRun ('(' :: cs) d false = sdRun cs d true := by
  rw [sdRun.eq_def]; simp

theorem sdRun_cons_text {c : Char} (cs : List Char) (d : Nat) (h1 : c ≠ '\\')
    (h2 : c ≠ '[') (h3 : c ≠ ']') (h4 : c ≠ '(') (h5 : c ≠ ')') :
    sdRun (c :: cs) d false = sdRun cs d false := by
  rw [sdRun.eq_def]; simp [h1, h2, h3, h4, h5]

theorem sdRun_style_close (cs : List Char) (d : Nat) :
    sdRun (')' :: cs) d true = sdRun cs d false := by
  rw [sdRun.eq_def]; simp

theorem sdRun_style_cons {c : Char} (cs : List Char) (d : Nat)
    (h1 : c ≠ ')') (h2 : (c = '(' || c = '[' || c = ']' || c = '\\') = false) :
    sdRun (c :: cs) d true = sdRun cs d true := by
  rw [sdRun.eq_def]; simp [h1]; simp at h2; simp [h2]

theorem sdRun_cons_ident {c : Char} (cs : List Char) (d : Nat)
    (h : identChar c = true) : sdRun (c :: cs) d false = sdRun cs d false := by
  obtain ⟨h1, h2, h3, h4, h5, -⟩ := identChar_ne h
  exact sdRun_cons_text cs d h1 h2 h3 h4 h5

theorem run_ok_sd (cs : List Char) (p : Nat) (mode : PMode)
    (stack : List (List Node)) (cur : List Node) :
    ∀ t, run cs p mode stack cur = Except.ok t →
      sdRun cs stack.length (sdSt mode) = true := by
  induction cs, p, mode, stack, cur using run.induct <;> intro t h <;>
    rw [run.eq_def] at h <;>
    simp_all [sdSt, sdRun_nil, sdRun_esc, sdRun_lb, sdRun_rb_succ, sdRun_lp,
      sdRun_cons_text, sdRun_style_close, sdRun_style_cons, sdRun_cons_ident]

/-- Goal of the style-pairing soundness induction, per parser mode: while a
style span is expected the remaining input must start with `(`. -/
def spGoal : List Char → PMode → Prop
  | cs, .expectStyle _ => ∃ cs2, cs = '(' :: cs2 ∧ spRun cs2 true = true
  | cs, .styleAcc _ _ => spRun cs true = true
  | cs, _ => spRun cs false = true

theorem spRun_nil (b : Bool) : spRun [] b = !b := by
  rw [spRun.eq_def]

theorem spRun_esc (c2 : Char) (cs : List Char) :
    spRun ('\\' :: c2 :: cs) false = spRun cs false := by
  rw [spRun.eq_def]; simp

theorem spRun_rb_lp (cs : List Char) :
    spRun (']' :: '(' :: cs) false = spRun cs true := by
  rw [spRun.eq_def]; simp

theorem spRun_lp (cs : List Char) : spRun ('(' :: cs) false = spRun cs true := by
  rw [spRun.eq_def]; simp

theorem spRun_cons {c : Char} (cs : List Char) (h1 : c ≠ '\\') (h2 : c ≠ ']')
    (h3 : c ≠ '(') : spRun (c :: cs) false = spRun cs false := by
  rw [spRun.eq_def]; simp [h1, h2, h3]

theorem spRun_cons_ident {c : Char} (cs : List Char) (h : identChar c = true) :
    spRun (c :: cs) false = spRun cs false := by
  obtain ⟨h1, -, h2, h3, -, -⟩ := identChar_ne h
  exact spRun_cons cs h1 h2 h3

theorem spRun_style_close (cs : List Char) :
    spRun (')' :: cs) true = spRun cs false := by
  rw [spRun.eq_def]; simp

theorem spRun_style_cons {c : Char} (cs : List Char) (h : c ≠ ')') :
    spRun (c :: cs) true = spRun cs true := by
  rw [spRun.eq_def]; simp [h]

theorem spRun_rb_of (cs : List Char)
    (h : ∃ cs2, cs = '(' :: cs2 ∧ spRun cs2 true = true) :
    spRun (']' :: cs) false = true := by
  obtain ⟨cs2, rfl, hs⟩ := h
  rw [spRun_rb_lp]; exact hs

theorem run_ok_sp (cs : List Char) (p : Nat) (mode : PMode)
    (stack : List (List Node)) (cur : List Node) :
    ∀ t, run cs p mode stack cur = Except.ok t → spGoal cs mode := by
  induction cs, p, mode, stack, cur using run.induct <;> intro t h <;>
    rw [run.eq_def] at h <;>
    simp_all [spGoal, spRun_nil, spRun_esc, spRun_rb_lp, spRun_lp, spRun_cons,
      spRun_cons_ident, spRun_style_close, spRun_style_cons, spRun_rb_of]

/-! ### Parser soundness with respect to the literal-text extractor -/

theorem nodesText_append (l1 l2 : List Node) :
    nodesText (l1 ++ l2) = nodesText l1 ++ nodesText l2 := by
  induction l1 with
  | nil => simp [nodesText]
  | cons n l ih => simp [nodesText, ih, String.append_assoc]

/-- Text of an accumulated (reversed) sibling list. -/
def nodesTextR (l : List Node) : String := nodesText l.reverse

theorem nodesTextR_nil : nodesTextR [] = "" := rfl

theorem nodesTextR_cons (n : Node) (l : List Node) :
    nodesTextR (n :: l) = nodesTextR l ++ nodeText n := by
  unfold nodesTextR
  rw [List.reverse_cons, nodesText_append]
  simp [nodesText, String.append_empty]

/-- Text already committed to the enclosing open display spans. -/
def stackText : List (List Node) → String
  | [] => ""
  | f :: stk => stackText stk ++ nodesTextR f

/-- Text still owed by the current parser mode and remaining input. -/
def modeText : PMode → List Char → String
  | .text, cs => txRun cs .t
  | .varAcc _, cs => txRun cs .sv
  | .expectStyle d, cs => nodesText d ++ txRun cs .t
  | .styleAcc d _, cs => nodesText d ++ txRun cs .ss

theorem txRun_nil (m : TMode) : txRun [] m = "" := by
  rw [txRun.eq_def]

theorem txRun_esc (c2 : Char) (cs : List Char) :
    txRun ('\\' :: c2 :: cs) .t = String.mk [c2] ++ txRun cs .t := by
  rw [txRun.eq_def]; simp

theorem txRun_d2 (cs : List Char) : txRun ('$' :: '$' :: cs) .t = "$" ++ txRun cs .t := by
  rw [txRun.eq_def]; simp

theorem txRun_dvar {c2 : Char} (cs : List Char) (h1 : c2 ≠ '$')
    (h2 : identChar c2 = true) : txRun ('$' :: c2 :: cs) .t = txRun cs .sv := by
  rw [txRun.eq_def]; simp [h1, h2]

theorem txRun_dother {c2 : Char} (cs : List Char) (h1 : c2 ≠ '$')
    (h2 : identChar c2 = false) :
    txRun ('$' :: c2 :: cs) .t = "$" ++ txRun (c2 :: cs) .t := by
  rw [txRun.eq_def]; simp [h1, h2]

theorem txRun_dnil : txRun ['$'] .t = "$" := by
  rw [txRun.eq_def]; simp

theorem txRun_lb (cs : List Char) : txRun ('[' :: cs) .t = txRun cs .t := by
  rw [txRun.eq_def]; simp

theorem txRun_rb (cs : List Char) : txRun (']' :: cs) .t = txRun cs .t := by
  rw [txRun.eq_def]; simp

theorem txRun_lp (cs : List Char) : txRun ('(' :: cs) .t = txRun cs .ss := by
  rw [txRun.eq_def]; simp

theorem txRun_other {c : Char} (cs : List Char) (h1 : c ≠ '\\') (h2 : c ≠ '$')
    (h3 : c ≠ '[') (h4 : c ≠ ']') (h5 : c ≠ '(') (h6 : c ≠ ')') :
    txRun (c :: cs) .t = String.mk [c] ++ txRun cs .t := by
  rw [txRun.eq_def]; simp [h1, h2, h3, h4, h5, h6]

theorem txRun_sv_ident {c : Char} (cs : List Char) (h : identChar c = true) :
    txRun (c :: cs) .sv = txRun cs .sv := by
  rw [txRun.eq_def]; simp [h]

theorem txRun_sv_flush {c : Char} (cs : List Char) (h : identChar c = false) :
    txRun (c :: cs) .sv = txRun (c :: cs) .t := by
  rw [txRun.eq_def]; simp [h]

theorem txRun_ss_close (cs : List Char) : txRun (')' :: cs) .ss = txRun cs .t := by
  rw [txRun.eq_def]; simp

theorem txRun_ss_cons {c : Char} (cs : List Char) (h : c ≠ ')') :
    txRun (c :: cs) .ss = txRun cs .ss := by
  rw [txRun.eq_def]; simp [h]

theorem run_ok_text (cs : List Char) (p : Nat) (mode : PMode)
    (stack : List (List Node)) (cur : List Node) :
    ∀ t, run cs p mode stack cur = Except.ok t →
      nodesText t = stackText stack ++ (nodesTextR cur ++ modeText mode cs) := by
  induction cs, p, mode, stack, cur using run.induct <;> intro t h <;>
    rw [run.eq_def] at h <;>
    simp_all [modeText, stackText, nodesTextR_nil, nodesTextR_cons, nodesText,
      nodeText, txRun_nil, txRun_esc, txRun_d2, txRun_dvar, txRun_dother,
      txRun_dnil, txRun_lb, txRun_rb, txRun_lp, txRun_other, txRun_sv_ident,
      txRun_sv_flush, txRun_ss_close, txRun_ss_cons, String.append_assoc,
      String.append_empty]
  all_goals simp_all [nodesTextR]

/-- Soundness package: a successfully parsed format string has matched
delimiters, no unknown escape, style spans paired to every display span, and
its tree carries exactly the literal text of the template. -/
theorem parse_ok_sound {s : String} {t : List Node} (h : parse s = Except.ok t) :
    chkDelims s = true ∧ chkEscapes s = true ∧ chkStylePaired s = true ∧
      nodesText t = textOf s := by
  refine ⟨?_, ?_, ?_, ?_⟩
  · have hs := run_ok_sd s.data 0 .text [] [] t h
    simpa [chkDelims, sdSt] using hs
  · exact run_ok_ce s.data 0 .text [] [] t h
  · have hs := run_ok_sp s.data 0 .text [] [] t h
    simpa [chkStylePaired, spGoal] using hs
  · have hs := run_ok_text s.data 0 .text [] [] t h
    simpa [stackText, nodesTextR, nodesText, modeText, textOf] using hs

/-! ### Evaluator step equations -/

theorem evalNodes_nil (m : MetaF) (sf : StyleF) (v : ValueF) :
    evalNodes m sf v [] = .ok ⟨[], false, false⟩ := by
  rw [evalNodes.eq_def]

theorem evalNodes_cons (m : MetaF) (sf : StyleF) (v : ValueF) (n : Node)
    (l : List Node) :
    evalNodes m sf v (n :: l) =
      (evalNode m sf v n).bind (fun r =>
        (evalNodes m sf v l).bind (fun rs =>
          .ok ⟨r.segs ++ rs.segs, r.hasRef || rs.hasRef, r.anyRes || rs.anyRes⟩)) := by
  rw [evalNodes.eq_def]; rfl

theorem evalNode_lit (m : MetaF) (sf : StyleF) (v : ValueF) (s : String) :
    evalNode m sf v (.lit s) = .ok ⟨[(s, none)], false, false⟩ := by
  rw [evalNode.eq_def]

theorem evalNode_var_meta {m : MetaF} (sf : StyleF) (v : ValueF) {n t : String}
    (h : m n = some t) :
    evalNode m sf v (.var n) = .ok ⟨[(t, none)], true, true⟩ := by
  rw [evalNode.eq_def]; simp [h]

theorem evalNode_var_val {m : MetaF} (sf : StyleF) {v : ValueF} {n t : String}
    (h : m n = none) (h2 : v n = some (.ok t)) :
    evalNode m sf v (.var n) = .ok ⟨[(t, none)], true, true⟩ := by
  rw [evalNode.eq_def]; simp [h, h2]

theorem evalNode_var_err {m : MetaF} (sf : StyleF) {v : ValueF} {n e : String}
    (h : m n = none) (h2 : v n = some (.error e)) :
    evalNode m sf v (.var n) = .error e := by
  rw [evalNode.eq_def]; simp [h, h2]

theorem evalNode_var_none {m : MetaF} (sf : StyleF) {v : ValueF} {n : String}
    (h : m n = none) (h2 : v n = none) :
    evalNode m sf v (.var n) = .ok ⟨[], true, false⟩ := by
  rw [evalNode.eq_def]; simp [h, h2]

theorem evalNode_group (m : MetaF) (sf : StyleF) (v : ValueF) (d : List Node)
    (st : List StyleTok) :
    evalNode m sf v (.group d st) =
      (evalNodes m sf v d).bind (fun r =>
        if r.hasRef && !r.anyRes then .ok ⟨[], false, false⟩
        else
          (resolveStyleWords sf st).bind (fun ws =>
            .ok ⟨applyStyle (String.intercalate " " ws) r.segs, false,
              !(applyStyle (String.intercalate " " ws) r.segs).isEmpty⟩)) := by
  rw [evalNode.eq_def]; rfl

/-! ### Evaluator support: syntactic predicates and key lemmas -/

/-- Is the node a direct Variable reference? -/
def isVar : Node → Bool
  | .var _ => true
  | _ => false

/-- Does a display span contain a direct Variable reference? -/
def hasVarB (l : List Node) : Bool := l.any isVar

theorem evalNode_ok_hasRef {m : MetaF} {sf : StyleF} {v : ValueF} {n : Node}
    {r : EvalRes} (h : evalNode m sf v n = .ok r) : r.hasRef = isVar n := by
  match n with
  | .lit s => rw [evalNode_lit] at h; cases h; rfl
  | .var name =>
      rw [evalNode.eq_def] at h
      cases hm : m name with
      | some t => simp [hm] at h; cases h; rfl
      | none =>
          cases hv : v name with
          | none => simp [hm, hv] at h; cases h; rfl
          | some res =>
              cases res with
              | ok t => simp [hm, hv] at h; cases h; rfl
              | error e => simp [hm, hv] at h
  | .group d st =>
      rw [evalNode_group] at h
      cases hd : evalNodes m sf v d with
      | error e => rw [hd] at h; exact absurd h (by simp [Except.bind])
      | ok rd =>
          rw [hd] at h
          simp only [Except.bind] at h
          by_cases hb : (rd.hasRef && !rd.anyRes) = true
          · simp [hb] at h; cases h; rfl
          · simp [hb] at h
            cases hws : resolveStyleWords sf st with
            | error e => rw [hws] at h; exact absurd h (by simp [Except.bind])
            | ok ws => rw [hws] at h; simp [Except.bind] at h; cases h; rfl

mutual

/-- Somewhere in the tree (display spans at any depth) sits a Variable whose
name the meta resolver does not cover and for which the value resolver
returns an explicit `Err`. -/
def nodeValueErr (m : MetaF) (v : ValueF) : Node → Bool
  | .lit _ => false
  | .var n =>
      match m n, v n with
      | none, some (.error _) => true
      | _, _ => false
  | .group d _ => nodesValueErr m v d

/-- `nodeValueErr` over a span of nodes. -/
def nodesValueErr (m : MetaF) (v : ValueF) : List Node → Bool
  | [] => false
  | n :: l => nodeValueErr m v n || nodesValueErr m v l

end

theorem valueErr_evals_err (m : MetaF) (sf : StyleF) (v : ValueF) :
    ∀ l : List Node, nodesValueErr m v l = true →
      ∃ e, evalNodes m sf v l = .error e := by
  refine nodesText.induct
    (fun n => nodeValueErr m v n = true → ∃ e, evalNode m sf v n = .error e)
    (fun l => nodesValueErr m v l = true → ∃ e, evalNodes m sf v l = .error e)
    ?_ ?_ ?_ ?_ ?_
  · intro s h
    rw [nodeValueErr.eq_def] at h
    simp at h
  · intro name h
    rw [nodeValueErr.eq_def] at h
    simp only at h
    match hm : m name, hv : v name with
    | none, some (.error e) => exact ⟨e, evalNode_var_err sf hm hv⟩
    | some t, _ => rw [hm] at h; simp at h
    | none, none => rw [hm, hv] at h; simp at h
    | none, some (.ok t) => rw [hm, hv] at h; simp at h
  · intro d st ih h
    rw [nodeValueErr.eq_def] at h
    simp only at h
    obtain ⟨e, he⟩ := ih h
    exact ⟨e, by rw [evalNode_group, he]; rfl⟩
  · intro h
    rw [nodesValueErr.eq_def] at h
    simp at h
  · intro n l ihn ihl h
    rw [nodesValueErr.eq_def] at h
    simp only [Bool.or_eq_true] at h
    rw [evalNodes_cons]
    rcases h with h | h
    · obtain ⟨e, he⟩ := ihn h
      exact ⟨e, by rw [he]; rfl⟩
    · obtain ⟨e, he⟩ := ihl h
      cases hn : evalNode m sf v n with
      | error e2 => exact ⟨e2, rfl⟩
      | ok r => exact ⟨e, by rw [he]; rfl⟩

/-- A style token whose `$name` lookup returns an explicit `Err`. -/
def styleTokErr (sf : StyleF) : StyleTok → Bool
  | .lit _ => false
  | .svar n =>
      match sf n with
      | some (.error _) => true
      | _ => false

/-- Some token of the style span is a `$name` whose style lookup errs. -/
def anyStyleErrTok (sf : StyleF) (st : List StyleTok) : Bool :=
  st.any (styleTokErr sf)

theorem styleErr_resolve_err (sf : StyleF) (st : List StyleTok)
    (h : anyStyleErrTok sf st = true) :
    ∃ e, resolveStyleWords sf st = .error e := by
  induction st with
  | nil => simp [anyStyleErrTok] at h
  | cons tok r ih =>
      cases tok with
      | lit w =>
          simp only [anyStyleErrTok, List.any_cons, styleTokErr,
            Bool.false_or] at h
          obtain ⟨e, he⟩ := ih h
          exact ⟨e, by simp [resolveStyleWords, he, Except.map]⟩
      | svar n =>
          cases hsf : sf n with
          | none =>
              simp only [anyStyleErrTok, List.any_cons, styleTokErr, hsf,
                Bool.false_or] at h
              obtain ⟨e, he⟩ := ih h
              exact ⟨e, by simp [resolveStyleWords, hsf, he]⟩
          | some res =>
              cases res with
              | ok sp =>
                  simp only [anyStyleErrTok, List.any_cons, styleTokErr, hsf,
                    Bool.false_or] at h
                  obtain ⟨e, he⟩ := ih h
                  exact ⟨e, by simp [resolveStyleWords, hsf, he, Except.map]⟩
              | error e => exact ⟨e, by simp [resolveStyleWords, hsf]⟩

/-- Does a style span contain a `$name` reference? -/
def styleHasVar (st : List StyleTok) : Bool :=
  st.any (fun tok =>
    match tok with
    | .svar _ => true
    | .lit _ => false)

/-- The literal word of a style token (style references carry none). -/
def litWord : StyleTok → String
  | .lit w => w
  | .svar _ => ""

theorem resolve_lit (sf : StyleF) (st : List StyleTok)
    (h : styleHasVar st = false) :
    resolveStyleWords sf st = .ok (st.map litWord) := by
  induction st with
  | nil => simp [resolveStyleWords]
  | cons tok r ih =>
      cases tok with
      | lit w =>
          simp only [styleHasVar, List.any_cons, Bool.false_or] at h
          simp [resolveStyleWords, ih h, litWord, Except.map]
      | svar n => simp [styleHasVar] at h

mutual

/-- The tree contains no `$name` reference at all: no Variable node in any
display span and no style-variable token in any style span. -/
def nodeNoRefs : Node → Bool
  | .lit _ => true
  | .var _ => false
  | .group d st => !styleHasVar st && nodesNoRefs d

/-- `nodeNoRefs` over a span of nodes. -/
def nodesNoRefs : List Node → Bool
  | [] => true
  | n :: l => nodeNoRefs n && nodesNoRefs l

end

mutual

/-- Resolver-free evaluation: the unique result of evaluating a tree without
references (groups are kept, their literal style words applied). -/
def pureNode : Node → EvalRes
  | .lit s => ⟨[(s, none)], false, false⟩
  | .var _ => ⟨[], true, false⟩
  | .group d st =>
      let r := pureNodes d
      let out := applyStyle (String.intercalate " " (st.map litWord)) r.segs
      ⟨out, false, !out.isEmpty⟩

/-- `pureNode` over a span of nodes. -/
def pureNodes : List Node → EvalRes
  | [] => ⟨[], false, false⟩
  | n :: l =>
      let r := pureNode n
      let rs := pureNodes l
      ⟨r.segs ++ rs.segs, r.hasRef || rs.hasRef, r.anyRes || rs.anyRes⟩

end

theorem pureNodes_hasRef (l : List Node) : (pureNodes l).hasRef = hasVarB l := by
  induction l with
  | nil => rw [pureNodes.eq_def]; simp [hasVarB]
  | cons n r ih =>
      rw [pureNodes.eq_def]
      simp only [hasVarB, List.any_cons]
      cases n with
      | lit s => rw [pureNode.eq_def]; simp [isVar, ih, hasVarB]
      | var name => rw [pureNode.eq_def]; simp [isVar]
      | group d st => rw [pureNode.eq_def]; simp [isVar, ih, hasVarB]

theorem noRefs_hasVar (l : List Node) (h : nodesNoRefs l = true) :
    hasVarB l = false := by
  induction l with
  | nil => simp [hasVarB]
  | cons n r ih =>
      rw [nodesNoRefs.eq_def] at h
      simp only [Bool.and_eq_true] at h
      simp only [hasVarB, List.any_cons, Bool.or_eq_false_iff]
      refine ⟨?_, by simpa [hasVarB] using ih h.2⟩
      cases n with
      | lit s => simp [isVar]
      | var name => rw [nodeNoRefs.eq_def] at h; simp at h
      | group d st => simp [isVar]

theorem noRefs_eval (m : MetaF) (sf : StyleF) (v : ValueF) :
    ∀ l : List Node, nodesNoRefs l = true →
      evalNodes m sf v l = .ok (pureNodes l) := by
  refine nodesText.induct
    (fun n => nodeNoRefs n = true → evalNode m sf v n = .ok (pureNode n))
    (fun l => nodesNoRefs l = true → evalNodes m sf v l = .ok (pureNodes l))
    ?_ ?_ ?_ ?_ ?_
  · intro s _
    rw [evalNode_lit, pureNode.eq_def]
  · intro name h
    rw [nodeNoRefs.eq_def] at h
    simp at h
  · intro d st ih h
    rw [nodeNoRefs.eq_def] at h
    simp only [Bool.and_eq_true, Bool.not_eq_eq_eq_not, Bool.not_true] at h
    obtain ⟨hsv, hd⟩ := h
    rw [evalNode_group, ih hd]
    have href : (pureNodes d).hasRef = false := by
      rw [pureNodes_hasRef, noRefs_hasVar d hd]
    simp only [Except.bind, href, Bool.false_and, Bool.false_eq_true, if_false,
      resolve_lit sf st hsv]
    rw [pureNode.eq_def]
  · intro _
    rw [evalNodes_nil, pureNodes.eq_def]
  · intro n l ihn ihl h
    rw [nodesNoRefs.eq_def] at h
    simp only [Bool.and_eq_true] at h
    rw [evalNodes_cons, ihn h.1, ihl h.2]
    conv_rhs => rw [pureNodes.eq_def]
    rfl

/-- The concatenated text of a segment sequence. -/
def segsText : List Segment → String
  | [] => ""
  | sgm :: rest => sgm.1 ++ segsText rest

theorem segsText_append (a b : List Segment) :
    segsText (a ++ b) = segsText a ++ segsText b := by
  induction a with
  | nil => simp [segsText]
  | cons sgm r ih => simp [segsText, ih, String.append_assoc]

theorem segsText_applyStyle (sp : String) (segs : List Segment) :
    segsText (applyStyle sp segs) = segsText segs := by
  induction segs with
  | nil => rfl
  | cons sgm r ih => simp [applyStyle, segsText] at ih ⊢; rw [ih]

theorem pure_text : ∀ l : List Node, segsText (pureNodes l).segs = nodesText l := by
  refine nodesText.induct
    (fun n => segsText (pureNode n).segs = nodeText n)
    (fun l => segsText (pureNodes l).segs = nodesText l)
    ?_ ?_ ?_ ?_ ?_
  · intro s
    rw [pureNode.eq_def]
    simp [segsText, nodeText, String.append_empty]
  · intro name
    rw [pureNode.eq_def]
    simp [segsText, nodeText]
  · intro d st ih
    rw [pureNode.eq_def]
    simp only [nodeText]
    rw [segsText_applyStyle]
    exact ih
  · show segsText (pureNodes []).segs = nodesText []
    rw [pureNodes.eq_def]
    simp [segsText, nodesText]
  · intro n l ihn ihl
    rw [pureNodes.eq_def]
    simp only [nodesText]
    rw [segsText_append, ihn, ihl]

/-- With no duplicate keys, association lookup is invariant under
permutation of the gathered batch. -/
theorem perm_lookup :
    ∀ {l1 l2 : List (String × Option (Except String String))}, l1.Perm l2 →
      (l1.map Prod.fst).Nodup → ∀ a, List.lookup a l1 = List.lookup a l2 := by
  intro l1 l2 hp
  induction hp with
  | nil => intro _ _; rfl
  | cons x hp ih =>
      intro hn a
      simp only [List.map_cons, List.nodup_cons] at hn
      simp only [List.lookup]
      cases hax : a == x.1 with
      | true => rfl
      | false => exact ih hn.2 a
  | swap x y l =>
      intro hn a
      simp only [List.map_cons, List.nodup_cons, List.mem_cons] at hn
      have hxy : y.1 ≠ x.1 := fun he => hn.1 (Or.inl he)
      simp only [List.lookup]
      cases hax : a == x.1 with
      | true =>
          cases hay : a == y.1 with
          | true =>
              exact absurd (by rw [← beq_iff_eq.mp hax, beq_iff_eq.mp hay]) hxy
          | false => rfl
      | false => cases hay : a == y.1 with
          | true => rfl
          | false => rfl
  | trans h1 h2 ih1 ih2 =>
      intro hn a
      rw [ih1 hn a, ih2 (((h1.map Prod.fst).nodup_iff).mp hn) a]

instance {ε α : Type} [DecidableEq ε] [DecidableEq α] : DecidableEq (Except ε α) :=
  fun a b =>
    match a, b with
    | .error e, .error e2 =>
        if h : e = e2 then isTrue (by rw [h]) else isFalse (fun hc => h (by cases hc; rfl))
    | .error _, .ok _ => isFalse (fun hc => Except.noConfusion hc)
    | .ok _, .error _ => isFalse (fun hc => Except.noConfusion hc)
    | .ok a, .ok b =>
        if h : a = b then isTrue (by rw [h]) else isFalse (fun hc => h (by cases hc; rfl))

theorem evalNodes_ok_hasRef {m : MetaF} {sf : StyleF} {v : ValueF} :
    ∀ {l : List Node} {r : EvalRes}, evalNodes m sf v l = .ok r →
      r.hasRef = hasVarB l := by
  intro l
  induction l with
  | nil =>
      intro r h
      rw [evalNodes_nil] at h
      cases h
      simp [hasVarB]
  | cons n l ih =>
      intro r h
      rw [evalNodes_cons] at h
      cases hn : evalNode m sf v n with
      | error e => rw [hn] at h; exact absurd h (by simp [Except.bind])
      | ok rn =>
          rw [hn] at h
          simp only [Except.bind] at h
          cases hl : evalNodes m sf v l with
          | error e => rw [hl] at h; exact absurd h (by simp)
          | ok rl =>
              rw [hl] at h
              cases h
              simp [hasVarB, List.any_cons, evalNode_ok_hasRef hn, ih hl]

theorem evaluate_of_evalNodes_err {m : MetaF} {sf : StyleF} {v : ValueF}
    {l : List Node} {e : String} (h : evalNodes m sf v l = .error e) :
    evaluate m sf v l = .error e := by
  simp [evaluate, h, Except.map]

theorem err_mono (m : MetaF) (sf : StyleF) (v : ValueF) :
    ∀ (pre l2 : List Node), (∃ e, evalNodes m sf v l2 = .error e) →
      ∃ e, evalNodes m sf v (pre ++ l2) = .error e := by
  intro pre
  induction pre with
  | nil => intro l2 h; simpa using h
  | cons n l ih =>
      intro l2 h
      rw [List.cons_append, evalNodes_cons]
      cases hn : evalNode m sf v n with
      | error e => exact ⟨e, rfl⟩
      | ok r =>
          obtain ⟨e, he⟩ := ih l2 h
          exact ⟨e, by simp [Except.bind, he]⟩

theorem group_style_err {m : MetaF} {sf : StyleF} {v : ValueF} {d : List Node}
    {st : List StyleTok} {r : EvalRes} (hst : anyStyleErrTok sf st = true)
    (hd : evalNodes m sf v d = .ok r) (hkept : (r.hasRef && !r.anyRes) = false) :
    ∃ e, evalNode m sf v (.group d st) = .error e := by
  obtain ⟨e, he⟩ := styleErr_resolve_err sf st hst
  refine ⟨e, ?_⟩
  rw [evalNode_group, hd]
  simp [Except.bind, hkept, he]

/-- The node occurs in the forest: as an element of the list, or anywhere
inside the display span of a group that occurs — the positions the
depth-first walk of §4.2 visits while buffering. -/
inductive InForest (n : Node) : List Node → Prop where
  | here {l : List Node} (h : n ∈ l) : InForest n l
  | deeper {l d : List Node} {st : List StyleTok}
      (hg : Node.group d st ∈ l) (h : InForest n d) : InForest n l

theorem evalNodes_err_of_mem {m : MetaF} {sf : StyleF} {v : ValueF} {n : Node}
    {e : String} (he : evalNode m sf v n = .error e) :
    ∀ {l : List Node}, n ∈ l → ∃ e2, evalNodes m sf v l = .error e2 := by
  intro l
  induction l with
  | nil => intro h; exact absurd h (List.not_mem_nil n)
  | cons a l ih =>
      intro h
      rw [evalNodes_cons]
      rcases List.mem_cons.mp h with h | h
      · subst h
        rw [he]
        exact ⟨e, rfl⟩
      · cases ha : evalNode m sf v a with
        | error e2 => exact ⟨e2, rfl⟩
        | ok r =>
            obtain ⟨e2, he2⟩ := ih h
            exact ⟨e2, by simp [Except.bind, he2]⟩

theorem inForest_err {m : MetaF} {sf : StyleF} {v : ValueF} {n : Node}
    {l : List Node} (hin : InForest n l) {e : String}
    (he : evalNode m sf v n = .error e) :
    ∃ e2, evalNodes m sf v l = .error e2 := by
  induction hin with
  | here h => exact evalNodes_err_of_mem he h
  | @deeper l2 d st hg hIn ih =>
      obtain ⟨e2, he2⟩ := ih
      have hg2 : evalNode m sf v (.group d st) = .error e2 := by
        rw [evalNode_group, he2]
        rfl
      exact evalNodes_err_of_mem hg2 hg

/-- Modelled from the spec: §4.3 / §5 — the two-phase async protocol: the
batch of async value lookups completes in some order, yielding a
name-to-ResolvedValue association; the synchronous walk then evaluates over
that map. -/
def evalTwoPhase (m : MetaF) (sf : StyleF)
    (gathered : List (String × Option (Except String String))) (l : List Node) :
    Except String (List Segment) :=
  evaluate m sf (fun n => (List.lookup n gathered).join) l

/-! ### Concrete resolver fixtures used by witnesses -/

/-- A meta resolver answering nothing. -/
def mNone : MetaF := fun _ => none

/-- A style resolver answering nothing. -/
def sfNone : StyleF := fun _ => none

/-- A value resolver answering nothing. -/
def vNone : ValueF := fun _ => none

/-- A value resolver failing on `version`, as a failed subprocess would. -/
def vErrVersion : ValueF :=
  fun n => if n = "version" then some (.error "perl not found") else none

/-- A style resolver failing on `style`. -/
def sfErrStyle : StyleF :=
  fun n => if n = "style" then some (.error "invalid style") else none

/-- A style resolver mapping `style` to bold. -/
def sfBold : StyleF := fun n => if n = "style" then some (.ok "bold") else none

/-- A style resolver failing on `bad` but fine on `style`. -/
def sfMixed : StyleF :=
  fun n =>
    if n = "bad" then some (.error "bad style")
    else if n = "style" then some (.ok "bold") else none

/-- A meta resolver mapping `symbol` to an icon. -/
def mSym : MetaF := fun n => if n = "symbol" then some "S " else none

/-- A value resolver with `a` resolved and everything else absent. -/
def vA : ValueF := fun n => if n = "a" then some (.ok "x") else none

/-- A reference-free parse result used as a witness tree. -/
def tlit : List Node :=
  [Node.lit "x", Node.lit " ", Node.group [Node.lit "y"] [StyleTok.lit "bold"]]

/-! ### The claims -/

/-- C7: parse is total over every input string and fails closed: every input
with an unmatched bracket or parenthesis (`chkDelims` false) or an unknown
escape (`chkEscapes` false) yields a structured `ParseError` (each
constructor carries its offset); parse never returns a partial tree — its
result is a complete tree or an error. -/
theorem claim_parse_fails_closed :
    (∀ s : String, (∃ t, parse s = .ok t) ∨ (∃ e, parse s = .error e)) ∧
    (∀ s : String, chkDelims s = false ∨ chkEscapes s = false →
      ∃ e, parse s = .error e) := by
  constructor
  · intro s
    cases h : parse s with
    | ok t => exact Or.inl ⟨t, rfl⟩
    | error e => exact Or.inr ⟨e, rfl⟩
  · intro s h
    cases hp : parse s with
    | error e => exact ⟨e, rfl⟩
    | ok t =>
        obtain ⟨h1, h2, -, -⟩ := parse_ok_sound hp
        rcases h with h | h <;> simp_all

/-- Witness for C7 at the unterminated input `"[a"`. -/
theorem claim_parse_fails_closed_witness :
    (chkDelims "[a" = false ∨ chkEscapes "[a" = false) ∧
      ∃ e, parse "[a" = .error e :=
  ⟨Or.inl (by decide), claim_parse_fails_closed.2 "[a" (Or.inl (by decide))⟩

/-- C8: a `[...]` display span not immediately followed by a `(...)` style
span is a parse error (`chkStylePaired` soundness), and in particular the
default pony format string is rejected by this grammar — its inner
`($version )` is not a styled group. -/
theorem claim_style_mandatory :
    (∀ s : String, chkStylePaired s = false → ∃ e, parse s = .error e) ∧
    (∃ e, parse "via [$symbol($version )]($style)" = .error e) := by
  constructor
  · intro s h
    cases hp : parse s with
    | error e => exact ⟨e, rfl⟩
    | ok t =>
        obtain ⟨-, -, h3, -⟩ := parse_ok_sound hp
        simp_all
  · refine ⟨.unterminated 12, ?_⟩
    simp [parse, run.eq_def, identChar, Char.isAlphanum, Char.isAlpha,
      Char.isUpper, Char.isLower, Char.isDigit]

/-- Witness for C8 at `"[a]b"`, a display span followed by text. -/
theorem claim_style_mandatory_witness :
    chkStylePaired "[a]b" = false ∧ ∃ e, parse "[a]b" = .error e :=
  ⟨by decide, claim_style_mandatory.1 "[a]b" (by decide)⟩

/-- C5: a well-formed template with no `$name` references (no Variable node
and no style-variable token) renders, for every choice of resolvers, to the
same successful segment sequence, whose text is exactly the template's
literal text with escapes resolved (`textOf`). -/
theorem claim_literal_template (s : String) (t : List Node)
    (hp : parse s = .ok t) (hn : nodesNoRefs t = true) (m : MetaF) (sf : StyleF)
    (v : ValueF) (m2 : MetaF) (sf2 : StyleF) (v2 : ValueF) :
    evaluate m sf v t = evaluate m2 sf2 v2 t ∧
    ∃ segs, evaluate m sf v t = .ok segs ∧ segsText segs = textOf s := by
  have h1 := noRefs_eval m sf v t hn
  have h2 := noRefs_eval m2 sf2 v2 t hn
  constructor
  · simp [evaluate, h1, h2]
  · refine ⟨(pureNodes t).segs, by simp [evaluate, h1, Except.map], ?_⟩
    rw [pure_text t]
    exact (parse_ok_sound hp).2.2.2

/-- Witness for C5 at the template `"x [y](bold)"` with two different
resolver triples, one of which even errs on names never referenced. -/
theorem claim_literal_template_witness :
    evaluate mSym sfErrStyle vErrVersion tlit = evaluate mNone sfNone vNone tlit ∧
    ∃ segs, evaluate mSym sfErrStyle vErrVersion tlit = .ok segs ∧
      segsText segs = textOf "x [y](bold)" := by
  have hp : parse "x [y](bold)" = .ok tlit := by
    simp [parse, run.eq_def, tlit, mkStyle, splitWords, mkTok, identChar,
      Char.isAlphanum, Char.isAlpha, Char.isUpper, Char.isLower, Char.isDigit]
  exact claim_literal_template "x [y](bold)" tlit hp rfl mSym sfErrStyle
    vErrVersion mNone sfNone vNone

/-- C6: evaluation is deterministic — extensionally equal resolvers give
byte-identical results — and the two-phase async protocol is insensitive to
the completion order of the gathered lookups (any permutation of a
duplicate-free batch gives the same segments). -/
theorem claim_deterministic :
    (∀ (t : List Node) (m1 : MetaF) (sf1 : StyleF) (v1 : ValueF) (m2 : MetaF)
        (sf2 : StyleF) (v2 : ValueF),
      (∀ n, m1 n = m2 n) → (∀ n, sf1 n = sf2 n) → (∀ n, v1 n = v2 n) →
      evaluate m1 sf1 v1 t = evaluate m2 sf2 v2 t) ∧
    (∀ (t : List Node) (m : MetaF) (sf : StyleF)
        (l1 l2 : List (String × Option (Except String String))),
      l1.Perm l2 → (l1.map Prod.fst).Nodup →
      evalTwoPhase m sf l1 t = evalTwoPhase m sf l2 t) := by
  constructor
  · intro t m1 sf1 v1 m2 sf2 v2 hm hsf hv
    rw [funext hm, funext hsf, funext hv]
  · intro t m sf l1 l2 hp hn
    unfold evalTwoPhase
    have he : (fun n => (List.lookup n l1).join) =
        (fun n => (List.lookup n l2).join) :=
      funext fun n => by rw [perm_lookup hp hn n]
    rw [he]

/-- A gathered async batch, and the same batch completed in another order. -/
def gather1 : List (String × Option (Except String String)) :=
  [("b", none), ("a", some (.ok "x"))]

/-- The other completion order of `gather1`. -/
def gather2 : List (String × Option (Except String String)) :=
  [("a", some (.ok "x")), ("b", none)]

/-- Witness for C6 on the tree `$a` with the two completion orders. -/
theorem claim_deterministic_witness :
    evaluate mNone sfNone vA [Node.var "a"] = evaluate mNone sfNone vA [Node.var "a"] ∧
    evalTwoPhase mNone sfNone gather1 [Node.var "a"] =
      evalTwoPhase mNone sfNone gather2 [Node.var "a"] :=
  ⟨claim_deterministic.1 [Node.var "a"] mNone sfNone vA mNone sfNone vA
      (fun _ => rfl) (fun _ => rfl) (fun _ => rfl),
   claim_deterministic.2 [Node.var "a"] mNone sfNone gather1 gather2
      (List.Perm.swap _ _ _) (by decide)⟩

/-- C3: for a `Variable(name)` node the meta resolver is consulted first —
when it answers, its text is emitted verbatim with no own style and the
value resolver is irrelevant to that node; only when it answers `none` is
the node's result exactly the value resolver's answer. -/
theorem claim_meta_precedence (n : String) (m : MetaF) (sf : StyleF) :
    (∀ t, m n = some t → ∀ v v2 : ValueF,
      evalNode m sf v (.var n) = .ok ⟨[(t, none)], true, true⟩ ∧
      evalNode m sf v2 (.var n) = evalNode m sf v (.var n)) ∧
    (m n = none → ∀ v : ValueF,
      evalNode m sf v (.var n) =
        match v n with
        | some (.ok t) => .ok ⟨[(t, none)], true, true⟩
        | some (.error e) => .error e
        | none => .ok ⟨[], true, false⟩) := by
  constructor
  · intro t h v v2
    exact ⟨evalNode_var_meta sf v h,
      by rw [evalNode_var_meta sf v h, evalNode_var_meta sf v2 h]⟩
  · intro h v
    rw [evalNode.eq_def]
    simp [h]

/-- Witness for C3: `symbol` covered by meta (value resolver irrelevant even
when it would err), `a` falling through to the value resolver. -/
theorem claim_meta_precedence_witness :
    (evalNode mSym sfNone vErrVersion (.var "symbol") =
        .ok ⟨[("S ", none)], true, true⟩ ∧
      evalNode mSym sfNone vNone (.var "symbol") =
        evalNode mSym sfNone vErrVersion (.var "symbol")) ∧
    evalNode mNone sfNone vA (.var "a") =
      (match vA "a" with
       | some (.ok t) => .ok ⟨[(t, none)], true, true⟩
       | some (.error e) => .error e
       | none => .ok ⟨[], true, false⟩) :=
  ⟨(claim_meta_precedence "symbol" mSym sfNone).1 "S " rfl vErrVersion vNone,
   (claim_meta_precedence "a" mNone sfNone).2 rfl vA⟩

/-- C2: a `ParseError` on the primary format makes the call site render with
the caller-supplied default format exactly once; the module produces no
segments due to a ParseError only when the default fails to parse as well,
and a successfully parsed primary never consults the default. -/
theorem claim_parse_fallback (primary dflt : String) (m : MetaF) (sf : StyleF)
    (v : ValueF) :
    (∀ t, parse primary = .ok t →
      renderWithDefault primary dflt m sf v = setSegmentsResult (evaluate m sf v t)) ∧
    (∀ e, parse primary = .error e →
      renderWithDefault primary dflt m sf v =
        (match parse dflt with
         | .ok t => setSegmentsResult (evaluate m sf v t)
         | .error _ => none)) ∧
    (∀ e e2, parse primary = .error e → parse dflt = .error e2 →
      renderWithDefault primary dflt m sf v = none) := by
  refine ⟨?_, ?_, ?_⟩
  · intro t h
    unfold renderWithDefault
    rw [h]
  · intro e h
    unfold renderWithDefault
    rw [h]
  · intro e e2 h h2
    unfold renderWithDefault
    rw [h, h2]

/-- Witness for C2: `"[a"` fails to parse; the default is then rendered, and
a failing default omits the module. -/
theorem claim_parse_fallback_witness :
    (renderWithDefault "[a" "ok" mNone sfNone vNone =
      (match parse "ok" with
       | .ok t => setSegmentsResult (evaluate mNone sfNone vNone t)
       | .error _ => none)) ∧
    renderWithDefault "[a" "[b" mNone sfNone vNone = none := by
  have h1 : parse "[a" = .error (.unterminated 2) := by
    simp [parse, run.eq_def, identChar, Char.isAlphanum, Char.isAlpha,
      Char.isUpper, Char.isLower, Char.isDigit]
  have h2 : parse "[b" = .error (.unterminated 2) := by
    simp [parse, run.eq_def, identChar, Char.isAlphanum, Char.isAlpha,
      Char.isUpper, Char.isLower, Char.isDigit]
  exact ⟨(claim_parse_fallback "[a" "ok" mNone sfNone vNone).2.1 _ h1,
    (claim_parse_fallback "[a" "[b" mNone sfNone vNone).2.2 _ _ h1 h2⟩

/-- C1: for every parsed tree, if a consulted value resolver errs (a
Variable anywhere in the tree whose name meta does not cover and whose value
lookup is `Err`), or a consulted style resolver errs (an erring style token
of a non-elided group occurring anywhere in the tree, at any display
nesting depth), evaluation returns `Err` and the module sets no segments at
all — `set_segments` is only ever fed a complete `Ok` result, and on `Err`
the module function returns `None`, contributing nothing to the prompt. -/
theorem claim_eval_error_no_output (m : MetaF) (sf : StyleF) (v : ValueF) :
    (∀ l : List Node, nodesValueErr m v l = true →
      ∃ e, evaluate m sf v l = .error e ∧
        setSegmentsResult (evaluate m sf v l) = none) ∧
    (∀ (l d : List Node) (st : List StyleTok) (r : EvalRes),
      InForest (.group d st) l →
      anyStyleErrTok sf st = true → evalNodes m sf v d = .ok r →
      (r.hasRef && !r.anyRes) = false →
      ∃ e, evaluate m sf v l = .error e ∧
        setSegmentsResult (evaluate m sf v l) = none) := by
  constructor
  · intro l h
    obtain ⟨e, he⟩ := valueErr_evals_err m sf v l h
    refine ⟨e, evaluate_of_evalNodes_err he, ?_⟩
    rw [evaluate_of_evalNodes_err he]
    rfl
  · intro l d st r hin hst hd hkept
    obtain ⟨e0, he0⟩ := group_style_err hst hd hkept
    obtain ⟨e, he⟩ := inForest_err hin he0
    refine ⟨e, evaluate_of_evalNodes_err he, ?_⟩
    rw [evaluate_of_evalNodes_err he]
    rfl

/-- Witness for C1: an erring value lookup for `$version`, and an erring
style lookup on a kept group nested inside another group's display span —
the whole tree aborts and sets no segments. -/
theorem claim_eval_error_no_output_witness :
    (∃ e, evaluate mNone sfNone vErrVersion [Node.var "version"] = .error e ∧
      setSegmentsResult (evaluate mNone sfNone vErrVersion [Node.var "version"]) = none) ∧
    (∃ e, evaluate mNone sfMixed vNone
        [Node.group [Node.lit "x", Node.group [Node.lit "y"] [StyleTok.svar "bad"]]
          [StyleTok.svar "style"]] = .error e ∧
      setSegmentsResult (evaluate mNone sfMixed vNone
        [Node.group [Node.lit "x", Node.group [Node.lit "y"] [StyleTok.svar "bad"]]
          [StyleTok.svar "style"]]) = none) :=
  ⟨(claim_eval_error_no_output mNone sfNone vErrVersion).1 [Node.var "version"] rfl,
   (claim_eval_error_no_output mNone sfMixed vNone).2
      [Node.group [Node.lit "x", Node.group [Node.lit "y"] [StyleTok.svar "bad"]]
        [StyleTok.svar "style"]]
      [Node.lit "y"] [StyleTok.svar "bad"] ⟨[("y", none)], false, false⟩
      (@InForest.deeper (Node.group [Node.lit "y"] [StyleTok.svar "bad"])
        [Node.group [Node.lit "x", Node.group [Node.lit "y"] [StyleTok.svar "bad"]]
          [StyleTok.svar "style"]]
        [Node.lit "x", Node.group [Node.lit "y"] [StyleTok.svar "bad"]]
        [StyleTok.svar "style"] (by simp) (InForest.here (by simp))) rfl rfl rfl⟩

/-- C4: for a group `[display](style)`, the tracked references of the
display span are its direct Variables (`hasRef` is exactly the syntactic
`hasVarB`) plus, for resolution purposes, nested groups that rendered
non-empty (`anyRes`).  If the span has a direct Variable reference and no
tracked reference resolved, the group contributes zero segments, style
wrapper included; if some reference resolved, the group's whole buffered
content — literal text plus resolved variables — is emitted, styled per its
resolved style span. -/
theorem claim_group_elision (d : List Node) (st : List StyleTok) (m : MetaF)
    (sf : StyleF) (v : ValueF) (r : EvalRes) (hd : evalNodes m sf v d = .ok r) :
    r.hasRef = hasVarB d ∧
    (hasVarB d = true → r.anyRes = false → evaluate m sf v [.group d st] = .ok []) ∧
    (r.anyRes = true →
      evaluate m sf v [.group d st] =
        (resolveStyleWords sf st).map
          (fun ws => applyStyle (String.intercalate " " ws) r.segs)) := by
  refine ⟨evalNodes_ok_hasRef hd, ?_, ?_⟩
  · intro hvar hres
    have href : r.hasRef = true := by rw [evalNodes_ok_hasRef hd, hvar]
    simp [evaluate, evalNodes_cons, evalNodes_nil, evalNode_group, hd,
      Except.bind, href, hres, Except.map]
  · intro hres
    have hkept : (r.hasRef && !r.anyRes) = false := by simp [hres]
    cases hws : resolveStyleWords sf st with
    | error e =>
        simp [evaluate, evalNodes_cons, evalNodes_nil, evalNode_group, hd,
          Except.bind, hkept, hws, Except.map]
    | ok ws =>
        simp [evaluate, evalNodes_cons, evalNodes_nil, evalNode_group, hd,
          Except.bind, hkept, hws, Except.map]

/-- Witness for C4: `[$b]($style)` with `b` unresolved elides to zero
segments; `[$a $b]($style)` with `a` resolved keeps its whole content,
styled. -/
theorem claim_group_elision_witness :
    evaluate mNone sfBold vA [Node.group [Node.var "b"] [StyleTok.svar "style"]] = .ok [] ∧
    evaluate mNone sfBold vA
        [Node.group [Node.var "a", Node.lit " ", Node.var "b"] [StyleTok.svar "style"]] =
      (resolveStyleWords sfBold [StyleTok.svar "style"]).map
        (fun ws => applyStyle (String.intercalate " " ws)
          [("x", none), (" ", none)]) :=
  ⟨(claim_group_elision [Node.var "b"] [StyleTok.svar "style"] mNone sfBold vA
      ⟨[], true, false⟩ rfl).2.1 rfl rfl,
   (claim_group_elision [Node.var "a", Node.lit " ", Node.var "b"]
      [StyleTok.svar "style"] mNone sfBold vA
      ⟨[("x", none), (" ", none)], true, true⟩ rfl).2.2 rfl⟩

/-- C9: the aws module's profile is the first set variable among
AWSU_PROFILE, AWS_VAULT, AWS_PROFILE in that order; its region is
AWS_DEFAULT_REGION, else AWS_REGION, else the region of the AWS config file
(section `profile <name>` when a profile is known, section `default`
otherwise); with neither profile nor region the module returns `None`. -/
theorem claim_aws_profile_region (ctx : AwsContext) (cfg : AwsConfig) :
    (getAwsProfileAndRegion ctx).1 =
      (ctx.env "AWSU_PROFILE" <|> ctx.env "AWS_VAULT" <|> ctx.env "AWS_PROFILE") ∧
    (getAwsProfileAndRegion ctx).2 =
      ((ctx.env "AWS_DEFAULT_REGION" <|> ctx.env "AWS_REGION") <|>
        getAwsRegionFromConfig ctx (getAwsProfileAndRegion ctx).1) ∧
    ((getAwsProfileAndRegion ctx).1 = none → (getAwsProfileAndRegion ctx).2 = none →
      awsModule ctx cfg = none) := by
  refine ⟨?_, ?_, ?_⟩
  · unfold getAwsProfileAndRegion
    cases hu : ctx.env "AWSU_PROFILE" <;> cases hv : ctx.env "AWS_VAULT" <;>
      cases hp : ctx.env "AWS_PROFILE" <;> cases hd : ctx.env "AWS_DEFAULT_REGION" <;>
      cases hr : ctx.env "AWS_REGION" <;>
      simp_all [List.findSome?, Option.orElse]
  · unfold getAwsProfileAndRegion
    cases hu : ctx.env "AWSU_PROFILE" <;> cases hv : ctx.env "AWS_VAULT" <;>
      cases hp : ctx.env "AWS_PROFILE" <;> cases hd : ctx.env "AWS_DEFAULT_REGION" <;>
      cases hr : ctx.env "AWS_REGION" <;>
      simp_all [List.findSome?, Option.orElse]
  · intro h1 h2
    unfold awsModule
    simp [h1, h2]

/-- Witness for C9: an empty environment with no home and no config file —
profile and region are absent and the module contributes nothing. -/
theorem claim_aws_profile_region_witness :
    awsModule ⟨fun _ => none, none, fun _ => none⟩ ⟨"", "", "", []⟩ = none :=
  (claim_aws_profile_region ⟨fun _ => none, none, fun _ => none⟩
    ⟨"", "", "", []⟩).2.2 rfl rfl

end Starship
